import Mathlib

/-!
Shallow embedding of `packages/nodes-base/nodes/EmailSend/v2/send.operation.ts`:
the batch email sender (`execute`) and its transport-configuration helper
(`configureTransport`).

Modelling conventions:
* JavaScript values that may be `undefined` are `Option`s.
* Calls into the host (`getNodeParameter`, `getCredentials`) that may throw
  are `Except String` values carried by the per-item environment; the value
  observed by `execute` is fixed by that environment.
* A `sendMail` promise is modelled by its eventual settlement
  (`SettledResult`), fixed per item in the environment; `Promise.allSettled`
  keeps submission order, so the settled list is the submission-ordered list
  of these settlements.
* JavaScript numbers relevant here (ports, batch sizes, intervals) are `Int`.
  For `itemIndex % batchSize` with `batchSize = 0` JavaScript yields `NaN`,
  which never equals `0`; `Int.emod i 0 = i` likewise differs from `0` for
  every reachable `i > 0`, so `Int.emod` is an exact model on the guarded
  domain `itemIndex > 0 ∧ batchSize ≥ 0`.
-/

set_option autoImplicit false

namespace EmailSendV2

/-- Binary payload metadata as exposed by `assertBinaryData` /
`getBinaryDataBuffer`: a possibly-missing file name and opaque content. -/
structure BinaryData where
  fileName : Option String
  content : String
  deriving DecidableEq

/-- One attachment handed to the transport: `{filename, content, cid}`. -/
structure Attachment where
  filename : String
  content : String
  cid : String
  deriving DecidableEq

/-- The `batch` inner collection: `{batchSize?, batchInterval?}`. -/
structure BatchConfig where
  batchSize : Option Int
  batchInterval : Option Int
  deriving DecidableEq

/-- The `batching` fixed collection: `{batch?}`. -/
structure Batching where
  batch : Option BatchConfig
  deriving DecidableEq

/-- The options bag of the send operation (`EmailSendOptions` in the source). -/
structure EmailSendOptions where
  allowUnauthorizedCerts : Option Bool
  attachments : Option String
  ccEmail : Option String
  bccEmail : Option String
  replyTo : Option String
  batching : Option Batching
  deriving DecidableEq

/-- The resolved `smtp` credentials object. -/
structure Credentials where
  host : String
  port : Int
  secure : Bool
  user : Option String
  password : Option String
  deriving DecidableEq

/-- The `auth` section of the nodemailer connection options. -/
structure SmtpAuth where
  user : Option String
  pass : Option String
  deriving DecidableEq

/-- The `tls` section of the nodemailer connection options. -/
structure SmtpTls where
  rejectUnauthorized : Bool
  deriving DecidableEq

/-- The connection options handed to `createTransport` (the external
nodemailer boundary): host, port, secure flag, optional auth and tls. -/
structure SmtpTransportOptions where
  host : String
  port : Int
  secure : Bool
  auth : Option SmtpAuth
  tls : Option SmtpTls
  deriving DecidableEq

/-- JavaScript string truthiness for an optional string field:
`undefined` and `""` are falsy, every other string is truthy. -/
def jsTruthy : Option String → Bool
  | none => false
  | some s => s ≠ ""

/-- Embedding of `configureTransport(credentials, options)` up to the
`createTransport` call: the connection-options object it constructs.
The `createTransport` call itself is the delegated nodemailer boundary. -/
def configureTransport (credentials : Credentials) (options : EmailSendOptions) :
    SmtpTransportOptions :=
  let connectionOptions : SmtpTransportOptions :=
    { host := credentials.host
      port := credentials.port
      secure := credentials.secure
      auth := none
      tls := none }
  let withAuth :=
    if jsTruthy credentials.user || jsTruthy credentials.password then
      { connectionOptions with
          auth := some { user := credentials.user, pass := credentials.password } }
    else connectionOptions
  if options.allowUnauthorizedCerts = some true then
    { withAuth with tls := some { rejectUnauthorized := false } }
  else withAuth

/-- The effective batch size: `options.batching?.batch?.batchSize ?? 1`. -/
def effectiveBatchSize (options : EmailSendOptions) : Int :=
  ((options.batching.bind Batching.batch).bind BatchConfig.batchSize).getD 1

/-- The effective batch interval:
`options.batching?.batch?.batchInterval ?? 1000`. -/
def effectiveBatchInterval (options : EmailSendOptions) : Int :=
  ((options.batching.bind Batching.batch).bind BatchConfig.batchInterval).getD 1000

/-- The pacing step of the submission loop: `some interval` when the source
executes `await sleep(batchInterval)` before submitting item `itemIndex`,
`none` otherwise.  Mirrors
`if (itemIndex > 0 && batchSize >= 0 && batchInterval > 0) { if (itemIndex % batchSize === 0) await sleep(batchInterval); }`. -/
def pacingDelay (itemIndex : Nat) (options : EmailSendOptions) : Option Int :=
  if 0 < itemIndex ∧ 0 ≤ effectiveBatchSize options ∧
      0 < effectiveBatchInterval options then
    if (itemIndex : Int) % effectiveBatchSize options = 0 then
      some (effectiveBatchInterval options)
    else none
  else none

/-- The message object handed to `transporter.sendMail` (`mailOptions`). -/
structure MailOptions where
  «from» : String
  «to» : String
  cc : Option String
  bcc : Option String
  subject : String
  replyTo : Option String
  text : Option String
  html : Option String
  attachments : Option (List Attachment)
  deriving DecidableEq

/-- The reason carried by a rejected send: a message plus the (deletable)
`cert` field holding TLS material. -/
structure ErrReason where
  message : String
  cert : Option String
  deriving DecidableEq

/-- The settlement of one `sendMail` promise, as observed after
`Promise.allSettled`. -/
inductive SettledResult where
  | fulfilled (value : String)
  | rejected (reason : ErrReason)
  deriving DecidableEq

/-- The `json` payload of one output record: the transport's response on
success, or `{error: message}` on a continued failure. -/
inductive OutcomeJson where
  | value (v : String)
  | errorMsg (message : String)
  deriving DecidableEq

/-- One output record: `{json, pairedItem: {item}}`. -/
structure Outcome where
  json : OutcomeJson
  pairedItem : Nat
  deriving DecidableEq

/-- How `execute` terminates abnormally: the re-raised delivery error
(`NodeApiError`), or the runtime `TypeError` from reading `.status` on
`undefined` after `shift()` runs past the end of the settled list. -/
inductive ExecError where
  | nodeApiError (reason : ErrReason)
  | typeError
  deriving DecidableEq

deriving instance DecidableEq for Except

/-- Embedding of `delete response.reason.cert`. -/
def stripCert (r : ErrReason) : ErrReason := { r with cert := none }

/-- Per-item environment: the values (or thrown errors) the host returns for
each `getNodeParameter` call, the item's binary payload map, and the eventual
settlement of this item's `sendMail` promise, were it submitted. -/
structure ItemEnv where
  fromEmail : Except String String
  toEmail : Except String String
  subject : Except String String
  emailFormat : Except String String
  text : Except String String
  html : Except String String
  options : Except String EmailSendOptions
  binary : Option (List (String × BinaryData))
  sendResult : SettledResult
  deriving DecidableEq

/-- JavaScript `spec.split(',')`, written as structural recursion over the
character list: split on every comma, keeping empty fields; the result is
never the empty list. -/
def splitOnCharAux (c : Char) : List Char → List Char → List String
  | [], acc => [String.mk acc.reverse]
  | x :: xs, acc =>
    if x = c then String.mk acc.reverse :: splitOnCharAux c xs []
    else splitOnCharAux c xs (x :: acc)

/-- JavaScript `spec.split(',')`. -/
def splitOnComma (s : String) : List String :=
  splitOnCharAux ',' s.data []

/-- JavaScript `String.prototype.trim`: strip leading and trailing
whitespace. -/
def jsTrim (s : String) : String :=
  String.mk (((s.data.dropWhile Char.isWhitespace).reverse.dropWhile
    Char.isWhitespace).reverse)

/-- Embedding of `this.helpers.assertBinaryData(itemIndex, propertyName)`
as a lookup in the item's binary map (`none` means the helper throws). -/
def lookupBinary (bin : List (String × BinaryData)) (propertyName : String) :
    Option BinaryData :=
  (bin.find? (fun p => p.1 = propertyName)).map Prod.snd

/-- Embedding of `binaryData.fileName || 'unknown'` (JS truthiness: both a
missing and an empty file name fall back to `"unknown"`). -/
def fileNameOrUnknown : Option String → String
  | none => "unknown"
  | some s => if s = "" then "unknown" else s

/-- Embedding of the attachment loop: for each trimmed property name, assert
the binary data (throwing when absent) and build
`{filename, content, cid: propertyName}`. -/
def buildAttachments (bin : List (String × BinaryData)) :
    List String → Except String (List Attachment)
  | [] => .ok []
  | propertyName :: rest =>
    match lookupBinary bin propertyName with
    | none => .error "This operation expects the node input data to contain a binary file"
    | some binaryData => do
      let tail ← buildAttachments bin rest
      .ok ({ filename := fileNameOrUnknown binaryData.fileName
             content := binaryData.content
             cid := propertyName } :: tail)

/-- The per-item data produced inside the `try` block: the `mailOptions`
object, the resolved options bag (consulted again for pacing), and the
connection options of the per-item transport. -/
structure BuiltItem where
  message : MailOptions
  options : EmailSendOptions
  transport : SmtpTransportOptions
  deriving DecidableEq

/-- The `mailOptions` object as first constructed, before the body and
attachment blocks run. -/
def baseMail (fromEmail toEmail subject : String) (options : EmailSendOptions) :
    MailOptions :=
  { «from» := fromEmail
    «to» := toEmail
    cc := options.ccEmail
    bcc := options.bccEmail
    subject := subject
    replyTo := options.replyTo
    text := none
    html := none
    attachments := none }

/-- Embedding of `if (emailFormat === 'text') { mailOptions.text = ... }`:
resolving the `text` parameter may itself throw. -/
def applyTextBody (emailFormat : String) (text : Except String String)
    (mailOptions : MailOptions) : Except String MailOptions :=
  if emailFormat = "text" then do
    let t ← text
    pure { mailOptions with text := some t }
  else pure mailOptions

/-- Embedding of `if (emailFormat === 'html') { mailOptions.html = ... }`. -/
def applyHtmlBody (emailFormat : String) (html : Except String String)
    (mailOptions : MailOptions) : Except String MailOptions :=
  if emailFormat = "html" then do
    let h ← html
    pure { mailOptions with html := some h }
  else pure mailOptions

/-- Embedding of the attachment block
`if (options.attachments && item.binary) { ... }`: split the spec on commas,
trim, assert each binary property, and set the `attachments` field only when
at least one attachment was built. -/
def applyAttachments (options : EmailSendOptions)
    (binary : Option (List (String × BinaryData)))
    (mailOptions : MailOptions) : Except String MailOptions :=
  match options.attachments, binary with
  | some spec, some bin =>
    if spec = "" then pure mailOptions
    else do
      let attachmentProperties := (splitOnComma spec).map jsTrim
      let attachments ← buildAttachments bin attachmentProperties
      if attachments.length ≠ 0 then
        pure { mailOptions with attachments := some attachments }
      else pure mailOptions
  | _, _ => pure mailOptions

/-- Embedding of the body of the per-item `try` block up to (not including)
the pacing step: resolve parameters and credentials, build `mailOptions`
with body and attachments.  An `.error` is a thrown exception, which the
empty `catch {}` of the source swallows. -/
def buildItem (creds : Except String Credentials) (env : ItemEnv) :
    Except String BuiltItem := do
  let fromEmail ← env.fromEmail
  let toEmail ← env.toEmail
  let subject ← env.subject
  let emailFormat ← env.emailFormat
  let options ← env.options
  let credentials ← creds
  let transport := configureTransport credentials options
  let mailOptions := baseMail fromEmail toEmail subject options
  let mailOptions ← applyTextBody emailFormat env.text mailOptions
  let mailOptions ← applyHtmlBody emailFormat env.html mailOptions
  let mailOptions ← applyAttachments options env.binary mailOptions
  pure { message := mailOptions, options := options, transport := transport }

/-- Whether the per-item `try` block of `env` runs to the `sendMail` push. -/
def buildOk (creds : Except String Credentials) (env : ItemEnv) : Bool :=
  (buildItem creds env).toOption.isSome

/-- Observable trace of the submission loop: the settlements of the pushed
`sendMail` promises in submission order, the `sleep` events `(itemIndex,
interval)`, the messages handed to the transport tagged by item index, and
the indices of the items whose promise was pushed, in order. -/
structure BuildResult where
  promises : List SettledResult
  sleeps : List (Nat × Int)
  messages : List (Nat × MailOptions)
  submitted : List Nat
  deriving DecidableEq

/-- Embedding of the submission loop from item `idx` on: each item's `try`
block either runs to completion (sleeping per `pacingDelay`, then pushing
its promise) or throws, in which case the empty `catch {}` drops the item
without pushing anything. -/
def buildPhaseAux (creds : Except String Credentials) :
    Nat → List ItemEnv → BuildResult
  | _, [] => ⟨[], [], [], []⟩
  | idx, env :: rest =>
    let r := buildPhaseAux creds (idx + 1) rest
    match buildItem creds env with
    | .ok b =>
      { promises := env.sendResult :: r.promises
        sleeps :=
          match pacingDelay idx b.options with
          | some d => (idx, d) :: r.sleeps
          | none => r.sleeps
        messages := (idx, b.message) :: r.messages
        submitted := idx :: r.submitted }
    | .error _ => r

/-- The whole submission loop over the input items. -/
def buildPhase (creds : Except String Credentials) (items : List ItemEnv) :
    BuildResult :=
  buildPhaseAux creds 0 items

/-- The output record pushed for the settled result at output index `i`
(assuming the continue-on-fail branch for rejections). -/
def settleOutcome (r : SettledResult) (i : Nat) : Outcome :=
  match r with
  | .fulfilled v => { json := .value v, pairedItem := i }
  | .rejected reason => { json := .errorMsg reason.message, pairedItem := i }

/-- The output records produced for a settled list starting at index `i`
when every iteration pushes (all fulfilled, or continue-on-fail). -/
def settleAll (i : Nat) : List SettledResult → List Outcome
  | [] => []
  | r :: rest => settleOutcome r i :: settleAll (i + 1) rest

/-- Embedding of the output loop: `remaining` iterations are left,
`itemIndex` is the current index, `results` is the mutable settled array
(`shift()` pops its head), `acc` is `returnData`.  On error the partial
`returnData` accumulated so far is carried alongside the thrown error. -/
def outputLoopAux (continueOnFail : Bool) :
    Nat → Nat → List SettledResult → List Outcome →
    Except (ExecError × List Outcome) (List Outcome)
  | _, 0, _, acc => .ok acc
  | itemIndex, remaining + 1, results, acc =>
    match results with
    | [] => .error (.typeError, acc)
    | response :: rest =>
      match response with
      | .fulfilled v =>
        outputLoopAux continueOnFail (itemIndex + 1) remaining rest
          (acc ++ [{ json := .value v, pairedItem := itemIndex }])
      | .rejected reason =>
        if continueOnFail then
          outputLoopAux continueOnFail (itemIndex + 1) remaining rest
            (acc ++ [{ json := .errorMsg reason.message, pairedItem := itemIndex }])
        else
          .error (.nodeApiError (stripCert reason), acc)

/-- The output loop over `n` input items and the given settled results. -/
def outputPhase (continueOnFail : Bool) (n : Nat) (results : List SettledResult) :
    Except (ExecError × List Outcome) (List Outcome) :=
  outputLoopAux continueOnFail 0 n results []

/-- Embedding of `execute`: run the submission loop, settle all promises,
then run the output loop; `prepareOutputData` wraps the records in one
outer list.  A thrown error discards the accumulated records. -/
def execute (continueOnFail : Bool) (creds : Except String Credentials)
    (items : List ItemEnv) : Except ExecError (List (List Outcome)) :=
  let b := buildPhase creds items
  match outputLoopAux continueOnFail 0 items.length b.promises [] with
  | .error (e, _) => .error e
  | .ok returnData => .ok [returnData]

/-- The reason of the first rejected settlement, in output-index order. -/
def firstRejected : List SettledResult → Option ErrReason
  | [] => none
  | .fulfilled _ :: rest => firstRejected rest
  | .rejected reason :: _ => some reason

/-! ### Concrete fixtures for witnesses and counterexamples -/

/-- Concrete smtp credentials used by witnesses. -/
def sampleCredentials : Credentials :=
  { host := "smtp.example.com", port := 465, secure := true,
    user := some "alice", password := some "hunter2" }

/-- An options bag with no option set; in particular the batching option is
unset. -/
def plainOptions : EmailSendOptions :=
  { allowUnauthorizedCerts := none, attachments := none, ccEmail := none,
    bccEmail := none, replyTo := none, batching := none }

/-- An options bag carrying the given batching configuration. -/
def batchOptions (batchSize batchInterval : Int) : EmailSendOptions :=
  { plainOptions with
      batching := some ⟨some ⟨some batchSize, some batchInterval⟩⟩ }

/-- An item environment whose parameters all resolve, with the given options
bag and send settlement. -/
def sampleEnv (options : EmailSendOptions) (sendResult : SettledResult) : ItemEnv :=
  { fromEmail := .ok "admin@example.com", toEmail := .ok "info@example.com",
    subject := .ok "My subject line", emailFormat := .ok "text",
    text := .ok "Plain text message", html := .ok "",
    options := .ok options, binary := none, sendResult := sendResult }

/-- An item environment whose `fromEmail` parameter resolution throws. -/
def failingEnv : ItemEnv :=
  { sampleEnv plainOptions (.fulfilled "unreached") with
      fromEmail := .error "parameter fromEmail is missing" }

/-- An options bag with attachment spec `"a, b"`. -/
def attachmentOptions : EmailSendOptions :=
  { plainOptions with attachments := some "a, b" }

/-- A binary payload map carrying properties `a` (with a file name) and `b`
(without one). -/
def sampleBinary : List (String × BinaryData) :=
  [("a", { fileName := some "imageA.png", content := "BYTES-A" }),
   ("b", { fileName := none, content := "BYTES-B" })]

/-- An item with attachment spec `"a, b"` and matching binary payloads. -/
def attachmentEnv : ItemEnv :=
  { sampleEnv attachmentOptions (.fulfilled "250 OK") with
      binary := some sampleBinary }

/-- The two attachments built from the spec `"a, b"` over `sampleBinary`. -/
def sampleAttachments : List Attachment :=
  [{ filename := "imageA.png", content := "BYTES-A", cid := "a" },
   { filename := "unknown", content := "BYTES-B", cid := "b" }]

/-- The item built from `sampleEnv plainOptions`, used by witnesses. -/
def sampleBuilt : BuiltItem :=
  { message :=
      { «from» := "admin@example.com"
        «to» := "info@example.com"
        cc := none
        bcc := none
        subject := "My subject line"
        replyTo := none
        text := some "Plain text message"
        html := none
        attachments := none }
    options := plainOptions
    transport := configureTransport sampleCredentials plainOptions }

/-- The item built from `attachmentEnv`, used by witnesses. -/
def attachmentBuilt : BuiltItem :=
  { message := { sampleBuilt.message with attachments := some sampleAttachments }
    options := attachmentOptions
    transport := configureTransport sampleCredentials attachmentOptions }

/-- Three items: the first fails resolution, the other two resolve. -/
def mixedItems : List ItemEnv :=
  [failingEnv, sampleEnv plainOptions (.fulfilled "250 OK"),
   sampleEnv plainOptions (.rejected { message := "boom", cert := none })]

/-- Two resolving items; the second one's send is rejected with a reason
carrying TLS certificate material. -/
def rejectingItems : List ItemEnv :=
  [sampleEnv plainOptions (.fulfilled "250 OK"),
   sampleEnv plainOptions (.rejected { message := "boom", cert := some "TLS-CERT" })]

/-! ### Helper lemmas about the output loop -/

theorem settleOutcome_pairedItem (r : SettledResult) (i : Nat) :
    (settleOutcome r i).pairedItem = i := by
  cases r <;> rfl

theorem settleAll_length (i : Nat) (l : List SettledResult) :
    (settleAll i l).length = l.length := by
  induction l generalizing i with
  | nil => rfl
  | cons r rest ih => simp [settleAll, ih]

theorem settleAll_get (i j : Nat) (l : List SettledResult) :
    (settleAll i l).get? j = (l.get? j).map (fun r => settleOutcome r (i + j)) := by
  induction l generalizing i j with
  | nil => simp [settleAll]
  | cons r rest ih =>
    cases j with
    | zero => simp [settleAll]
    | succ j =>
      have h := ih (i + 1) j
      have harith : i + 1 + j = i + (j + 1) := by omega
      rw [harith] at h
      simpa [settleAll] using h

theorem outputLoopAux_continue (l : List SettledResult) :
    ∀ (i : Nat) (acc : List Outcome),
      outputLoopAux true i l.length l acc = .ok (acc ++ settleAll i l) := by
  induction l with
  | nil => intro i acc; simp [outputLoopAux, settleAll]
  | cons r rest ih =>
    intro i acc
    cases r with
    | fulfilled v => simp [outputLoopAux, settleAll, settleOutcome, ih]
    | rejected reason => simp [outputLoopAux, settleAll, settleOutcome, ih]

theorem outputLoopAux_fulfilled (cof : Bool) (l : List SettledResult)
    (hf : ∀ r ∈ l, ∃ v, r = SettledResult.fulfilled v) :
    ∀ (i : Nat) (acc : List Outcome),
      outputLoopAux cof i l.length l acc = .ok (acc ++ settleAll i l) := by
  induction l with
  | nil => intro i acc; simp [outputLoopAux, settleAll]
  | cons r rest ih =>
    intro i acc
    obtain ⟨v, rfl⟩ := hf r (List.mem_cons_self r rest)
    have ih' := ih (fun x hx => hf x (List.mem_cons_of_mem _ hx))
    simp [outputLoopAux, settleAll, settleOutcome, ih']

theorem outputLoopAux_overrun (l : List SettledResult) :
    ∀ (remaining i : Nat) (acc : List Outcome), l.length < remaining →
      outputLoopAux true i remaining l acc =
        .error (.typeError, acc ++ settleAll i l) := by
  induction l with
  | nil =>
    intro remaining i acc h
    cases remaining with
    | zero => exact absurd h (by simp)
    | succ m => simp [outputLoopAux, settleAll]
  | cons r rest ih =>
    intro remaining i acc h
    cases remaining with
    | zero => exact absurd h (by simp)
    | succ m =>
      have hm : rest.length < m := by simpa using h
      cases r with
      | fulfilled v => simp [outputLoopAux, settleAll, settleOutcome, ih m _ _ hm]
      | rejected reason => simp [outputLoopAux, settleAll, settleOutcome, ih m _ _ hm]

theorem outputLoopAux_firstRejected (l : List SettledResult) :
    ∀ (remaining i : Nat) (acc : List Outcome) (reason : ErrReason),
      firstRejected l = some reason → l.length ≤ remaining →
      ∃ po, outputLoopAux false i remaining l acc =
        .error (.nodeApiError (stripCert reason), po) := by
  induction l with
  | nil => intro remaining i acc reason h _; exact absurd h (by simp [firstRejected])
  | cons r rest ih =>
    intro remaining i acc reason h hle
    cases remaining with
    | zero => exact absurd hle (by simp)
    | succ m =>
      cases r with
      | fulfilled v =>
        have h' : firstRejected rest = some reason := by simpa [firstRejected] using h
        have hle' : rest.length ≤ m := by simpa using hle
        obtain ⟨po, hpo⟩ := ih m (i + 1)
          (acc ++ [{ json := .value v, pairedItem := i }]) reason h' hle'
        exact ⟨po, by simp [outputLoopAux, hpo]⟩
      | rejected r0 =>
        have hr : r0 = reason := by simpa [firstRejected] using h
        subst hr
        exact ⟨acc, by simp [outputLoopAux]⟩

/-! ### Helper lemmas about the submission loop -/

theorem buildPhaseAux_promises_all_ok (creds : Except String Credentials)
    (envs : List ItemEnv) (hok : ∀ e ∈ envs, buildOk creds e) :
    ∀ idx : Nat, (buildPhaseAux creds idx envs).promises =
      envs.map ItemEnv.sendResult := by
  induction envs with
  | nil => intro idx; rfl
  | cons env rest ih =>
    intro idx
    have hhead : buildOk creds env := hok env (List.mem_cons_self env rest)
    have ih' := ih (fun e he => hok e (List.mem_cons_of_mem _ he)) (idx + 1)
    unfold buildOk at hhead
    cases hb : buildItem creds env with
    | error e => rw [hb] at hhead; simp [Except.toOption] at hhead
    | ok b => simp [buildPhaseAux, hb, ih']

theorem buildPhaseAux_promises_le (creds : Except String Credentials)
    (envs : List ItemEnv) :
    ∀ idx : Nat, (buildPhaseAux creds idx envs).promises.length ≤ envs.length := by
  induction envs with
  | nil => intro idx; simp [buildPhaseAux]
  | cons env rest ih =>
    intro idx
    cases hb : buildItem creds env with
    | error e =>
      calc (buildPhaseAux creds idx (env :: rest)).promises.length
          = (buildPhaseAux creds (idx + 1) rest).promises.length := by
            simp [buildPhaseAux, hb]
        _ ≤ rest.length := ih (idx + 1)
        _ ≤ (env :: rest).length := by simp
    | ok b =>
      have := ih (idx + 1)
      simp only [buildPhaseAux, hb, List.length_cons]
      simpa using this

theorem buildPhaseAux_promises_lt (creds : Except String Credentials)
    (envs : List ItemEnv) :
    ∀ (idx k : Nat) (e : ItemEnv), envs.get? k = some e → ¬buildOk creds e →
      (buildPhaseAux creds idx envs).promises.length < envs.length := by
  induction envs with
  | nil => intro idx k e hk _; simp at hk
  | cons env rest ih =>
    intro idx k e hk hbad
    cases k with
    | zero =>
      simp only [List.get?_cons_zero, Option.some.injEq] at hk
      subst hk
      unfold buildOk at hbad
      cases hb : buildItem creds env with
      | ok b => rw [hb] at hbad; simp [Except.toOption] at hbad
      | error msg =>
        have := buildPhaseAux_promises_le creds rest (idx + 1)
        calc (buildPhaseAux creds idx (env :: rest)).promises.length
            = (buildPhaseAux creds (idx + 1) rest).promises.length := by
              simp [buildPhaseAux, hb]
          _ ≤ rest.length := this
          _ < (env :: rest).length := by simp
    | succ k =>
      simp only [List.get?_cons_succ] at hk
      have hrest := ih (idx + 1) k e hk hbad
      cases hb : buildItem creds env with
      | error msg =>
        calc (buildPhaseAux creds idx (env :: rest)).promises.length
            = (buildPhaseAux creds (idx + 1) rest).promises.length := by
              simp [buildPhaseAux, hb]
          _ < rest.length := hrest
          _ ≤ (env :: rest).length := by simp
      | ok b =>
        simp only [buildPhaseAux, hb, List.length_cons]
        simpa using hrest

theorem buildPhaseAux_submitted_length (creds : Except String Credentials)
    (envs : List ItemEnv) :
    ∀ idx : Nat, (buildPhaseAux creds idx envs).submitted.length =
      (buildPhaseAux creds idx envs).promises.length := by
  induction envs with
  | nil => intro idx; rfl
  | cons env rest ih =>
    intro idx
    cases hb : buildItem creds env with
    | error e => simp [buildPhaseAux, hb, ih (idx + 1)]
    | ok b => simp [buildPhaseAux, hb, ih (idx + 1)]

theorem buildPhaseAux_submitted_ge (creds : Except String Credentials)
    (envs : List ItemEnv) :
    ∀ (idx j i : Nat), (buildPhaseAux creds idx envs).submitted.get? j = some i →
      idx + j ≤ i := by
  induction envs with
  | nil => intro idx j i h; simp [buildPhaseAux] at h
  | cons env rest ih =>
    intro idx j i h
    cases hb : buildItem creds env with
    | error e =>
      rw [show (buildPhaseAux creds idx (env :: rest)).submitted
            = (buildPhaseAux creds (idx + 1) rest).submitted by simp [buildPhaseAux, hb]] at h
      have := ih (idx + 1) j i h
      omega
    | ok b =>
      rw [show (buildPhaseAux creds idx (env :: rest)).submitted
            = idx :: (buildPhaseAux creds (idx + 1) rest).submitted by
          simp [buildPhaseAux, hb]] at h
      cases j with
      | zero => simp at h; omega
      | succ j =>
        simp only [List.get?_cons_succ] at h
        have := ih (idx + 1) j i h
        omega

theorem buildPhaseAux_submitted_shift (creds : Except String Credentials)
    (envs : List ItemEnv) :
    ∀ (idx k : Nat) (e : ItemEnv), envs.get? k = some e → ¬buildOk creds e →
      ∀ (j i : Nat), k ≤ j →
        (buildPhaseAux creds idx envs).submitted.get? j = some i →
        idx + j < i := by
  induction envs with
  | nil => intro idx k e hk; simp at hk
  | cons env rest ih =>
    intro idx k e hk hbad j i hkj hj
    cases k with
    | zero =>
      simp only [List.get?_cons_zero, Option.some.injEq] at hk
      subst hk
      unfold buildOk at hbad
      cases hb : buildItem creds env with
      | ok b => rw [hb] at hbad; simp [Except.toOption] at hbad
      | error msg =>
        rw [show (buildPhaseAux creds idx (env :: rest)).submitted
              = (buildPhaseAux creds (idx + 1) rest).submitted by
            simp [buildPhaseAux, hb]] at hj
        have := buildPhaseAux_submitted_ge creds rest (idx + 1) j i hj
        omega
    | succ k =>
      simp only [List.get?_cons_succ] at hk
      cases hb : buildItem creds env with
      | error msg =>
        rw [show (buildPhaseAux creds idx (env :: rest)).submitted
              = (buildPhaseAux creds (idx + 1) rest).submitted by
            simp [buildPhaseAux, hb]] at hj
        have := ih (idx + 1) k e hk hbad j i (by omega) hj
        omega
      | ok b =>
        rw [show (buildPhaseAux creds idx (env :: rest)).submitted
              = idx :: (buildPhaseAux creds (idx + 1) rest).submitted by
            simp [buildPhaseAux, hb]] at hj
        cases j with
        | zero => omega
        | succ j =>
          simp only [List.get?_cons_succ] at hj
          have := ih (idx + 1) k e hk hbad j i (by omega) hj
          omega

theorem buildPhaseAux_promise_source (creds : Except String Credentials)
    (envs : List ItemEnv) :
    ∀ (idx j i : Nat), (buildPhaseAux creds idx envs).submitted.get? j = some i →
      ∃ e, envs.get? (i - idx) = some e ∧
        (buildPhaseAux creds idx envs).promises.get? j = some e.sendResult := by
  induction envs with
  | nil => intro idx j i h; simp [buildPhaseAux] at h
  | cons env rest ih =>
    intro idx j i h
    cases hb : buildItem creds env with
    | error msg =>
      rw [show (buildPhaseAux creds idx (env :: rest)).submitted
            = (buildPhaseAux creds (idx + 1) rest).submitted by
          simp [buildPhaseAux, hb]] at h
      have hge := buildPhaseAux_submitted_ge creds rest (idx + 1) j i h
      obtain ⟨e, he, hp⟩ := ih (idx + 1) j i h
      refine ⟨e, ?_, ?_⟩
      · rw [show i - idx = (i - (idx + 1)) + 1 by omega]
        simpa using he
      · rw [show (buildPhaseAux creds idx (env :: rest)).promises
              = (buildPhaseAux creds (idx + 1) rest).promises by
            simp [buildPhaseAux, hb]]
        exact hp
    | ok b =>
      rw [show (buildPhaseAux creds idx (env :: rest)).submitted
            = idx :: (buildPhaseAux creds (idx + 1) rest).submitted by
          simp [buildPhaseAux, hb]] at h
      rw [show (buildPhaseAux creds idx (env :: rest)).promises
            = env.sendResult :: (buildPhaseAux creds (idx + 1) rest).promises by
          simp [buildPhaseAux, hb]]
      cases j with
      | zero =>
        simp only [List.get?_cons_zero, Option.some.injEq] at h
        subst h
        exact ⟨env, by simp, by simp⟩
      | succ j =>
        simp only [List.get?_cons_succ] at h
        have hge := buildPhaseAux_submitted_ge creds rest (idx + 1) j i h
        obtain ⟨e, he, hp⟩ := ih (idx + 1) j i h
        refine ⟨e, ?_, ?_⟩
        · rw [show i - idx = (i - (idx + 1)) + 1 by omega]
          simpa using he
        · simpa using hp

/-! ### Helper lemmas about the per-item build -/

theorem exceptBind_ok {ε α β : Type} {x : Except ε α} {f : α → Except ε β} {b : β}
    (h : x >>= f = .ok b) : ∃ a, x = .ok a ∧ f a = .ok b := by
  cases x with
  | error e => simp [Bind.bind, Except.bind] at h
  | ok a => exact ⟨a, rfl, by simpa [Bind.bind, Except.bind] using h⟩

theorem applyTextBody_ok_text {text : Except String String} {m m' : MailOptions}
    (h : applyTextBody "text" text m = .ok m') :
    ∃ t, text = .ok t ∧ m' = { m with text := some t } := by
  unfold applyTextBody at h
  rw [if_pos rfl] at h
  obtain ⟨t, ht, h2⟩ := exceptBind_ok h
  exact ⟨t, ht, by simpa [Pure.pure, Except.pure] using h2.symm⟩

theorem applyTextBody_ok_ne {emailFormat : String} (hf : emailFormat ≠ "text")
    {text : Except String String} {m m' : MailOptions}
    (h : applyTextBody emailFormat text m = .ok m') : m' = m := by
  unfold applyTextBody at h
  rw [if_neg hf] at h
  simpa [Pure.pure, Except.pure] using h.symm

theorem applyHtmlBody_ok_html {html : Except String String} {m m' : MailOptions}
    (h : applyHtmlBody "html" html m = .ok m') :
    ∃ s, html = .ok s ∧ m' = { m with html := some s } := by
  unfold applyHtmlBody at h
  rw [if_pos rfl] at h
  obtain ⟨s, hs, h2⟩ := exceptBind_ok h
  exact ⟨s, hs, by simpa [Pure.pure, Except.pure] using h2.symm⟩

theorem applyHtmlBody_ok_ne {emailFormat : String} (hf : emailFormat ≠ "html")
    {html : Except String String} {m m' : MailOptions}
    (h : applyHtmlBody emailFormat html m = .ok m') : m' = m := by
  unfold applyHtmlBody at h
  rw [if_neg hf] at h
  simpa [Pure.pure, Except.pure] using h.symm

theorem applyAttachments_ok_skip {options : EmailSendOptions}
    {binary : Option (List (String × BinaryData))} {m m' : MailOptions}
    (hcase : options.attachments = none ∨ binary = none)
    (h : applyAttachments options binary m = .ok m') : m' = m := by
  unfold applyAttachments at h
  rcases hcase with hc | hc
  · simp only [hc] at h
    simpa [Pure.pure, Except.pure] using h.symm
  · subst hc
    cases ha : options.attachments <;> simp only [ha] at h <;>
      simpa [Pure.pure, Except.pure] using h.symm

theorem applyAttachments_ok_spec {options : EmailSendOptions} {spec : String}
    {bin : List (String × BinaryData)} {m m' : MailOptions}
    (ha : options.attachments = some spec) (hs : spec ≠ "")
    (h : applyAttachments options (some bin) m = .ok m') :
    ∃ atts, buildAttachments bin ((splitOnComma spec).map jsTrim) = .ok atts ∧
      ((atts.length ≠ 0 ∧ m' = { m with attachments := some atts }) ∨
        (atts.length = 0 ∧ m' = m)) := by
  unfold applyAttachments at h
  simp only [ha] at h
  rw [if_neg hs] at h
  obtain ⟨atts, hatts, h2⟩ := exceptBind_ok h
  refine ⟨atts, hatts, ?_⟩
  by_cases hlen : atts.length ≠ 0
  · rw [if_pos hlen] at h2
    exact Or.inl ⟨hlen, by simpa [Pure.pure, Except.pure] using h2.symm⟩
  · rw [if_neg hlen] at h2
    exact Or.inr ⟨by omega, by simpa [Pure.pure, Except.pure] using h2.symm⟩

theorem applyAttachments_preserves {options : EmailSendOptions}
    {binary : Option (List (String × BinaryData))} {m m' : MailOptions}
    (h : applyAttachments options binary m = .ok m') :
    m'.text = m.text ∧ m'.html = m.html := by
  cases ha : options.attachments with
  | none => rw [applyAttachments_ok_skip (Or.inl ha) h]; exact ⟨rfl, rfl⟩
  | some spec =>
    cases hbin : binary with
    | none =>
      rw [hbin] at h
      rw [applyAttachments_ok_skip (Or.inr rfl) h]
      exact ⟨rfl, rfl⟩
    | some bin =>
      rw [hbin] at h
      by_cases hs : spec = ""
      · subst hs
        have hm : m' = m := by
          unfold applyAttachments at h
          simp only [ha] at h
          simpa [Pure.pure, Except.pure] using h.symm
        rw [hm]
        exact ⟨rfl, rfl⟩
      · obtain ⟨atts, _, hc⟩ := applyAttachments_ok_spec ha hs h
        rcases hc with ⟨_, rfl⟩ | ⟨_, rfl⟩ <;> exact ⟨rfl, rfl⟩

theorem buildAttachments_ok (bin : List (String × BinaryData)) :
    ∀ (names : List String) (atts : List Attachment),
      buildAttachments bin names = .ok atts →
      atts.length = names.length ∧
      (∀ (k : Nat) (a : Attachment), atts.get? k = some a →
        ∃ n bd, names.get? k = some n ∧ lookupBinary bin n = some bd ∧
          a.cid = n ∧ a.filename = fileNameOrUnknown bd.fileName ∧
          a.content = bd.content) := by
  intro names
  induction names with
  | nil =>
    intro atts h
    have : ([] : List Attachment) = atts := by
      simpa [buildAttachments] using h
    subst this
    exact ⟨rfl, by intro k a hk; simp at hk⟩
  | cons n rest ih =>
    intro atts h
    unfold buildAttachments at h
    cases hl : lookupBinary bin n with
    | none => simp only [hl] at h; simp at h
    | some bd =>
      simp only [hl] at h
      obtain ⟨tail, htail, h2⟩ := exceptBind_ok h
      have hcons :
          ({ filename := fileNameOrUnknown bd.fileName, content := bd.content,
             cid := n } : Attachment) :: tail = atts := by
        simpa using h2
      subst hcons
      obtain ⟨hlen, hget⟩ := ih tail htail
      refine ⟨by simp [hlen], ?_⟩
      intro k a hk
      cases k with
      | zero =>
        simp only [List.get?_cons_zero, Option.some.injEq] at hk
        subst hk
        exact ⟨n, bd, by simp, hl, rfl, rfl, rfl⟩
      | succ k =>
        simp only [List.get?_cons_succ] at hk
        obtain ⟨n', bd', hn, hlb, hcid, hfn, hct⟩ := hget k a hk
        exact ⟨n', bd', by simpa using hn, hlb, hcid, hfn, hct⟩

theorem splitOnCharAux_ne_nil (c : Char) :
    ∀ (l acc : List Char), splitOnCharAux c l acc ≠ [] := by
  intro l
  induction l with
  | nil => intro acc; simp [splitOnCharAux]
  | cons x xs ih =>
    intro acc
    unfold splitOnCharAux
    split_ifs
    · simp
    · exact ih (x :: acc)

theorem splitOnComma_ne_nil (s : String) : splitOnComma s ≠ [] :=
  splitOnCharAux_ne_nil ',' s.data []

theorem applyTextBody_ok_fields {emailFormat : String}
    {text : Except String String} {m m' : MailOptions}
    (h : applyTextBody emailFormat text m = .ok m') :
    m'.html = m.html ∧ m'.attachments = m.attachments := by
  by_cases hf : emailFormat = "text"
  · subst hf
    obtain ⟨t, _, rfl⟩ := applyTextBody_ok_text h
    exact ⟨rfl, rfl⟩
  · rw [applyTextBody_ok_ne hf h]
    exact ⟨rfl, rfl⟩

theorem applyHtmlBody_ok_fields {emailFormat : String}
    {html : Except String String} {m m' : MailOptions}
    (h : applyHtmlBody emailFormat html m = .ok m') :
    m'.text = m.text ∧ m'.attachments = m.attachments := by
  by_cases hf : emailFormat = "html"
  · subst hf
    obtain ⟨s, _, rfl⟩ := applyHtmlBody_ok_html h
    exact ⟨rfl, rfl⟩
  · rw [applyHtmlBody_ok_ne hf h]
    exact ⟨rfl, rfl⟩

theorem applyAttachments_ok_cases {options : EmailSendOptions}
    {binary : Option (List (String × BinaryData))} {m m' : MailOptions}
    (h : applyAttachments options binary m = .ok m') :
    m'.attachments = m.attachments ∨
      ∃ atts, atts.length ≠ 0 ∧ m'.attachments = some atts := by
  cases ha : options.attachments with
  | none => rw [applyAttachments_ok_skip (Or.inl ha) h]; exact Or.inl rfl
  | some spec =>
    cases hbin : binary with
    | none =>
      rw [hbin] at h
      rw [applyAttachments_ok_skip (Or.inr rfl) h]
      exact Or.inl rfl
    | some bin =>
      rw [hbin] at h
      by_cases hs : spec = ""
      · subst hs
        have hm : m' = m := by
          unfold applyAttachments at h
          simp only [ha] at h
          simpa [Pure.pure, Except.pure] using h.symm
        rw [hm]
        exact Or.inl rfl
      · obtain ⟨atts, _, hc⟩ := applyAttachments_ok_spec ha hs h
        rcases hc with ⟨hne, rfl⟩ | ⟨_, rfl⟩
        · exact Or.inr ⟨atts, hne, rfl⟩
        · exact Or.inl rfl

theorem buildItem_ok_elim {creds : Except String Credentials} {env : ItemEnv}
    {b : BuiltItem} (hb : buildItem creds env = .ok b) :
    ∃ fromEmail toEmail subject emailFormat options credentials m1 m2,
      env.fromEmail = .ok fromEmail ∧ env.toEmail = .ok toEmail ∧
      env.subject = .ok subject ∧ env.emailFormat = .ok emailFormat ∧
      env.options = .ok options ∧ creds = .ok credentials ∧
      b.options = options ∧
      b.transport = configureTransport credentials options ∧
      applyTextBody emailFormat env.text
        (baseMail fromEmail toEmail subject options) = .ok m1 ∧
      applyHtmlBody emailFormat env.html m1 = .ok m2 ∧
      applyAttachments options env.binary m2 = .ok b.message := by
  unfold buildItem at hb
  obtain ⟨fromEmail, h1, hb⟩ := exceptBind_ok hb
  obtain ⟨toEmail, h2, hb⟩ := exceptBind_ok hb
  obtain ⟨subject, h3, hb⟩ := exceptBind_ok hb
  obtain ⟨emailFormat, h4, hb⟩ := exceptBind_ok hb
  obtain ⟨options, h5, hb⟩ := exceptBind_ok hb
  obtain ⟨credentials, h6, hb⟩ := exceptBind_ok hb
  obtain ⟨m1, h7, hb⟩ := exceptBind_ok hb
  obtain ⟨m2, h8, hb⟩ := exceptBind_ok hb
  obtain ⟨m3, h9, hb⟩ := exceptBind_ok hb
  have hb' : b = ⟨m3, options, configureTransport credentials options⟩ := by
    simpa [Pure.pure, Except.pure] using hb.symm
  subst hb'
  exact ⟨fromEmail, toEmail, subject, emailFormat, options, credentials, m1, m2,
    h1, h2, h3, h4, h5, h6, rfl, rfl, h7, h8, h9⟩

/-! ### Claim theorems -/

/-- C2: for `i > 0` a pacing delay occurs immediately before submitting item
`i` iff `batchSize ≥ 0`, `batchInterval > 0` and `i % batchSize = 0`; no
delay ever occurs before item 0; the delay taken equals the effective batch
interval; an unset batching option yields effective batch size 1 and
interval 1000; `batchSize = -1` or `batchInterval = 0` disables pacing; and
with `batchSize = 2`, `batchInterval = 100` and 5 items the submission loop
sleeps exactly before items 2 and 4. -/
theorem pacing_characterization :
    (∀ (i : Nat) (opts : EmailSendOptions), 0 < i →
      ((pacingDelay i opts).isSome ↔
        (0 ≤ effectiveBatchSize opts ∧ 0 < effectiveBatchInterval opts ∧
          (i : Int) % effectiveBatchSize opts = 0)))
    ∧ (∀ opts : EmailSendOptions, pacingDelay 0 opts = none)
    ∧ (∀ (i : Nat) (opts : EmailSendOptions) (d : Int),
        pacingDelay i opts = some d → d = effectiveBatchInterval opts)
    ∧ (∀ opts : EmailSendOptions, opts.batching = none →
        effectiveBatchSize opts = 1 ∧ effectiveBatchInterval opts = 1000)
    ∧ (∀ (i : Nat) (opts : EmailSendOptions),
        effectiveBatchSize opts = -1 ∨ effectiveBatchInterval opts = 0 →
        pacingDelay i opts = none)
    ∧ (buildPhase (.ok sampleCredentials)
        (List.replicate 5 (sampleEnv (batchOptions 2 100) (.fulfilled "250 OK")))).sleeps
        = [(2, 100), (4, 100)] := by
  refine ⟨?_, ?_, ?_, ?_, ?_, by decide⟩
  · intro i opts hi
    unfold pacingDelay
    by_cases h1 : 0 ≤ effectiveBatchSize opts
    · by_cases h2 : 0 < effectiveBatchInterval opts
      · simp only [hi, h1, h2, and_self, and_true, true_and, if_true]
        split_ifs with h3 <;> simp [h3]
      · simp [hi, h1, h2]
    · simp [hi, h1]
  · intro opts; simp [pacingDelay]
  · intro i opts d h
    unfold pacingDelay at h
    split_ifs at h with h1 h2
    · injection h with h'
      exact h'.symm
  · intro opts h
    simp [effectiveBatchSize, effectiveBatchInterval, h]
  · intro i opts h
    unfold pacingDelay
    rcases h with h | h <;> split_ifs with h1 h2 <;> try rfl
    · rw [h] at h1; omega
    · rw [h] at h1; omega

/-- Witness for `pacing_characterization`: with batching `{batchSize := 2,
batchInterval := 100}` a delay occurs before item 2. -/
theorem pacing_characterization_witness :
    (pacingDelay 2 (batchOptions 2 100)).isSome := by
  exact (pacing_characterization.1 2 (batchOptions 2 100) (by decide)).mpr (by decide)

/-- C9: with a configured batch size of 0 no pacing delay ever occurs
(`itemIndex % 0` is `NaN` in JavaScript, never equal to 0), despite the
in-code comment and the parameter description announcing that 0 is treated
as 1. -/
theorem batch_size_zero_never_delays (i : Nat) (opts : EmailSendOptions)
    (h : effectiveBatchSize opts = 0) : pacingDelay i opts = none := by
  unfold pacingDelay
  split_ifs with h1 h2
  · rw [h, Int.emod_zero] at h2
    have : (0 : Int) < (i : Int) := by exact_mod_cast h1.1
    omega
  · rfl
  · rfl

/-- Witness for `batch_size_zero_never_delays` at item index 3 with batching
`{batchSize := 0, batchInterval := 500}`. -/
theorem batch_size_zero_never_delays_witness :
    pacingDelay 3 (batchOptions 0 500) = none :=
  batch_size_zero_never_delays 3 (batchOptions 0 500) (by decide)

/-- C7 counterexample: with the batching option unset the effective batch
size used for pacing is 1, not 50 (50 is only the display default of the
node parameter). -/
theorem default_batch_size_counterexample :
    effectiveBatchSize plainOptions = 1 ∧ effectiveBatchSize plainOptions ≠ 50 := by
  decide

/-- C7 amended: when the batching option is unset the effective batch size
used for pacing is 1 and the effective batch interval is 1000 ms. -/
theorem default_batch_config (opts : EmailSendOptions) (h : opts.batching = none) :
    effectiveBatchSize opts = 1 ∧ effectiveBatchInterval opts = 1000 := by
  simp [effectiveBatchSize, effectiveBatchInterval, h]

/-- Witness for `default_batch_config` at the concrete unset options bag. -/
theorem default_batch_config_witness :
    effectiveBatchSize plainOptions = 1 ∧ effectiveBatchInterval plainOptions = 1000 :=
  default_batch_config plainOptions (by decide)

/-- C8: `configureTransport` is a pure construction: the connection options
carry exactly the credential host, port and secure flag; an auth section
holding the user and password is attached iff the username or the password
is present (JS truthiness: non-empty); and `rejectUnauthorized := false` is
set on this connection-options value's `tls` section iff
`allowUnauthorizedCerts` is exactly `true`, leaving every other
configuration untouched. -/
theorem configure_transport_spec (credentials : Credentials)
    (options : EmailSendOptions) :
    (configureTransport credentials options).host = credentials.host
  ∧ (configureTransport credentials options).port = credentials.port
  ∧ (configureTransport credentials options).secure = credentials.secure
  ∧ (configureTransport credentials options).auth =
      (if jsTruthy credentials.user || jsTruthy credentials.password then
        some { user := credentials.user, pass := credentials.password } else none)
  ∧ (configureTransport credentials options).tls =
      (if options.allowUnauthorizedCerts = some true then
        some { rejectUnauthorized := false } else none) := by
  unfold configureTransport
  split_ifs with h1 h2 <;> simp_all

/-- C10: for every item whose build succeeds, the message handed to the
transport is populated from exactly one body field according to
`emailFormat`: `"text"` sets only the `text` field, `"html"` sets only the
`html` field, and the two are never both set. -/
theorem body_exclusive (creds : Except String Credentials) (env : ItemEnv)
    (b : BuiltItem) (hb : buildItem creds env = .ok b) :
    (env.emailFormat = .ok "text" →
      b.message.text.isSome ∧ b.message.html = none)
  ∧ (env.emailFormat = .ok "html" →
      b.message.text = none ∧ b.message.html.isSome)
  ∧ ¬(b.message.text.isSome ∧ b.message.html.isSome) := by
  obtain ⟨fE, tE, sub, fmt, opts, c, m1, m2, h1, h2, h3, h4, h5, h6, _, _,
    h7, h8, h9⟩ := buildItem_ok_elim hb
  obtain ⟨hpt, hph⟩ := applyAttachments_preserves h9
  by_cases hft : fmt = "text"
  · subst hft
    obtain ⟨t, _, hm1⟩ := applyTextBody_ok_text h7
    have hm2 := applyHtmlBody_ok_ne (by decide) h8
    subst hm2
    subst hm1
    refine ⟨fun _ => ⟨?_, ?_⟩, fun hh => ?_, fun hboth => ?_⟩
    · rw [hpt]; rfl
    · rw [hph]; rfl
    · rw [h4] at hh
      exact absurd hh (by decide)
    · rw [hph] at hboth
      simp [baseMail] at hboth
  · by_cases hfh : fmt = "html"
    · subst hfh
      have hm1 := applyTextBody_ok_ne hft h7
      subst hm1
      obtain ⟨s, _, hm2⟩ := applyHtmlBody_ok_html h8
      subst hm2
      refine ⟨fun hh => ?_, fun _ => ⟨?_, ?_⟩, fun hboth => ?_⟩
      · rw [h4] at hh
        exact absurd hh (by decide)
      · rw [hpt]; rfl
      · rw [hph]; rfl
      · rw [hpt] at hboth
        simp [baseMail] at hboth
    · have hm1 := applyTextBody_ok_ne hft h7
      subst hm1
      have hm2 := applyHtmlBody_ok_ne hfh h8
      subst hm2
      refine ⟨fun hh => ?_, fun hh => ?_, fun hboth => ?_⟩
      · rw [h4] at hh
        injection hh with hh'
        exact absurd hh' hft
      · rw [h4] at hh
        injection hh with hh'
        exact absurd hh' hfh
      · rw [hpt] at hboth
        simp [baseMail] at hboth

/-- Witness for `body_exclusive`: the sample text-format item builds a
message carrying a text body and no html body. -/
theorem body_exclusive_witness :
    ((sampleEnv plainOptions (.fulfilled "250 OK")).emailFormat = .ok "text" →
      sampleBuilt.message.text.isSome ∧ sampleBuilt.message.html = none)
  ∧ ((sampleEnv plainOptions (.fulfilled "250 OK")).emailFormat = .ok "html" →
      sampleBuilt.message.text = none ∧ sampleBuilt.message.html.isSome)
  ∧ ¬(sampleBuilt.message.text.isSome ∧ sampleBuilt.message.html.isSome) :=
  body_exclusive (.ok sampleCredentials)
    (sampleEnv plainOptions (.fulfilled "250 OK")) sampleBuilt (by decide)

/-- C5: for an item with a non-empty attachments spec and binary payloads,
the spec is split on commas and each name trimmed; each resolved name yields
one attachment with `cid` equal to the property name, the binary's content,
and its file name defaulting to `"unknown"`; the `attachments` field is set
exactly when at least one attachment was built; an item with a spec but no
binary data yields a message with no attachments field; and the field is
never an empty list.  The concrete spec `"a, b"` with binary properties `a`
and `b` yields exactly the two attachments with cids `a` and `b`. -/
theorem attachments_characterization :
    (∀ (creds : Except String Credentials) (env : ItemEnv) (b : BuiltItem)
      (opts : EmailSendOptions) (spec : String) (bin : List (String × BinaryData)),
      env.options = .ok opts → opts.attachments = some spec → spec ≠ "" →
      env.binary = some bin → buildItem creds env = .ok b →
      ∃ atts, buildAttachments bin ((splitOnComma spec).map jsTrim) = .ok atts ∧
        b.message.attachments = some atts ∧
        atts.length = ((splitOnComma spec).map jsTrim).length ∧
        (∀ (k : Nat) (a : Attachment), atts.get? k = some a →
          ∃ n bd, ((splitOnComma spec).map jsTrim).get? k = some n ∧
            lookupBinary bin n = some bd ∧ a.cid = n ∧
            a.filename = fileNameOrUnknown bd.fileName ∧ a.content = bd.content))
  ∧ (∀ (creds : Except String Credentials) (env : ItemEnv) (b : BuiltItem),
      env.binary = none → buildItem creds env = .ok b →
      b.message.attachments = none)
  ∧ (∀ (creds : Except String Credentials) (env : ItemEnv) (b : BuiltItem),
      buildItem creds env = .ok b → b.message.attachments ≠ some [])
  ∧ (∃ b, buildItem (.ok sampleCredentials) attachmentEnv = .ok b ∧
      b.message.attachments = some sampleAttachments) := by
  refine ⟨?_, ?_, ?_, ?_⟩
  · intro creds env b opts spec bin hopts ha hs hbin hb
    obtain ⟨fE, tE, sub, fmt, opts', c, m1, m2, h1, h2, h3, h4, h5, h6, _, _,
      h7, h8, h9⟩ := buildItem_ok_elim hb
    have hopts' : opts' = opts := by
      rw [h5] at hopts
      injection hopts
    subst hopts'
    rw [hbin] at h9
    have hbase1 := (applyTextBody_ok_fields h7).2
    have hbase2 := (applyHtmlBody_ok_fields h8).2
    obtain ⟨atts, hatts, hc⟩ := applyAttachments_ok_spec ha hs h9
    obtain ⟨hlen, hget⟩ := buildAttachments_ok bin _ _ hatts
    have hnames : ((splitOnComma spec).map jsTrim).length ≠ 0 := by
      intro hz
      exact splitOnComma_ne_nil spec (by
        have := List.map_eq_nil_iff.mp (List.length_eq_zero.mp hz)
        exact this)
    rcases hc with ⟨_, hm⟩ | ⟨hz, _⟩
    · exact ⟨atts, hatts, by rw [hm], hlen, hget⟩
    · rw [hlen] at hz
      exact absurd hz hnames
  · intro creds env b hbin hb
    obtain ⟨fE, tE, sub, fmt, opts', c, m1, m2, h1, h2, h3, h4, h5, h6, _, _,
      h7, h8, h9⟩ := buildItem_ok_elim hb
    rw [hbin] at h9
    rw [applyAttachments_ok_skip (Or.inr rfl) h9,
      (applyHtmlBody_ok_fields h8).2, (applyTextBody_ok_fields h7).2]
    rfl
  · intro creds env b hb
    obtain ⟨fE, tE, sub, fmt, opts', c, m1, m2, h1, h2, h3, h4, h5, h6, _, _,
      h7, h8, h9⟩ := buildItem_ok_elim hb
    have hnone : m2.attachments = none := by
      rw [(applyHtmlBody_ok_fields h8).2, (applyTextBody_ok_fields h7).2]
      rfl
    rcases applyAttachments_ok_cases h9 with hsame | ⟨atts, hne, hsome⟩
    · rw [hsame, hnone]
      simp
    · rw [hsome]
      intro hcontra
      injection hcontra with hcontra'
      rw [hcontra'] at hne
      simp at hne
  · exact ⟨attachmentBuilt, by decide, by decide⟩

/-- Witness for `attachments_characterization`: its first part applied at the
concrete item with spec `"a, b"` and binary properties `a` and `b`. -/
theorem attachments_characterization_witness :
    ∃ atts, buildAttachments sampleBinary
        ((splitOnComma "a, b").map jsTrim) = .ok atts ∧
      attachmentBuilt.message.attachments = some atts := by
  obtain ⟨atts, h1, h2, _, _⟩ :=
    attachments_characterization.1 (.ok sampleCredentials) attachmentEnv
      attachmentBuilt attachmentOptions "a, b" sampleBinary
      (by decide) (by decide) (by decide) (by decide) (by decide)
  exact ⟨atts, h1, h2⟩

/-- C1 counterexample: with continue-on-fail enabled and the first of two
items failing parameter resolution, `execute` throws the runtime `TypeError`
and produces no outcome at all, instead of one outcome per item with the
failed item contributing an error-tagged record. -/
theorem per_item_outcome_counterexample :
    execute true (.ok sampleCredentials)
      [failingEnv, sampleEnv plainOptions (.fulfilled "250 OK")] =
      .error .typeError := by
  decide

/-- C1 amended: for every input sequence on which every item's parameter
resolution succeeds, when continue-on-fail is enabled or every send
fulfills, `execute` returns exactly one outcome per input item: the output
has the input's length and position `i` carries `pairedItem.item = i`,
independently of completion order (settled results are consumed in
submission order). -/
theorem per_item_outcome (cof : Bool) (creds : Except String Credentials)
    (items : List ItemEnv) (hok : ∀ e ∈ items, buildOk creds e)
    (hcase : cof = true ∨ ∀ e ∈ items, ∃ v, e.sendResult = .fulfilled v) :
    ∃ out, execute cof creds items = .ok [out] ∧ out.length = items.length ∧
      ∀ j, j < items.length → ∃ o, out.get? j = some o ∧ o.pairedItem = j := by
  have hp : (buildPhase creds items).promises = items.map ItemEnv.sendResult :=
    buildPhaseAux_promises_all_ok creds items hok 0
  have hout : outputLoopAux cof 0 items.length (buildPhase creds items).promises []
      = .ok (settleAll 0 (items.map ItemEnv.sendResult)) := by
    rw [hp]
    rcases hcase with rfl | hful
    · have h := outputLoopAux_continue (items.map ItemEnv.sendResult) 0 []
      rw [List.length_map] at h
      simpa using h
    · have hf : ∀ r ∈ items.map ItemEnv.sendResult,
          ∃ v, r = SettledResult.fulfilled v := by
        intro r hr
        obtain ⟨e, he, rfl⟩ := List.mem_map.mp hr
        obtain ⟨v, hv⟩ := hful e he
        exact ⟨v, by rw [hv]⟩
      have h := outputLoopAux_fulfilled cof (items.map ItemEnv.sendResult) hf 0 []
      rw [List.length_map] at h
      simpa using h
  refine ⟨settleAll 0 (items.map ItemEnv.sendResult), ?_, ?_, ?_⟩
  · simp only [execute, hout]
  · rw [settleAll_length, List.length_map]
  · intro j hj
    have hje : items.get? j = some (items.get ⟨j, hj⟩) := List.get?_eq_get hj
    refine ⟨settleOutcome ((items.get ⟨j, hj⟩).sendResult) j, ?_,
      settleOutcome_pairedItem _ _⟩
    rw [settleAll_get, List.get?_map, hje]
    simp

/-- Witness for `per_item_outcome`: two resolving items with continue-on-fail
enabled produce two outcomes paired to indices 0 and 1. -/
theorem per_item_outcome_witness :
    ∃ out, execute true (.ok sampleCredentials) rejectingItems = .ok [out] ∧
      out.length = rejectingItems.length ∧
      ∀ j, j < rejectingItems.length →
        ∃ o, out.get? j = some o ∧ o.pairedItem = j :=
  per_item_outcome true (.ok sampleCredentials) rejectingItems
    (by decide) (Or.inl rfl)

/-- C4: with continue-on-fail enabled and every item resolving, every
rejected send yields exactly one error-tagged outcome carrying the
rejection's message and paired to that item's index, every fulfilled
sibling still yields its success outcome, and the whole output (one record
per item) is produced only after all sends settled. -/
theorem continue_on_fail_outcomes (creds : Except String Credentials)
    (items : List ItemEnv) (hok : ∀ e ∈ items, buildOk creds e) :
    ∃ out, execute true creds items = .ok [out] ∧ out.length = items.length ∧
      (∀ (j : Nat) (e : ItemEnv) (reason : ErrReason), items.get? j = some e →
        e.sendResult = .rejected reason →
        out.get? j = some { json := .errorMsg reason.message, pairedItem := j }) ∧
      (∀ (j : Nat) (e : ItemEnv) (v : String), items.get? j = some e →
        e.sendResult = .fulfilled v →
        out.get? j = some { json := .value v, pairedItem := j }) := by
  have hp : (buildPhase creds items).promises = items.map ItemEnv.sendResult :=
    buildPhaseAux_promises_all_ok creds items hok 0
  have hout : outputLoopAux true 0 items.length (buildPhase creds items).promises []
      = .ok (settleAll 0 (items.map ItemEnv.sendResult)) := by
    rw [hp]
    have h := outputLoopAux_continue (items.map ItemEnv.sendResult) 0 []
    rw [List.length_map] at h
    simpa using h
  refine ⟨settleAll 0 (items.map ItemEnv.sendResult), ?_, ?_, ?_, ?_⟩
  · simp only [execute, hout]
  · rw [settleAll_length, List.length_map]
  · intro j e reason hj hr
    rw [settleAll_get, List.get?_map, hj]
    simp [settleOutcome, hr]
  · intro j e v hj hv
    rw [settleAll_get, List.get?_map, hj]
    simp [settleOutcome, hv]

/-- Witness for `continue_on_fail_outcomes` on two concrete items whose
second send is rejected. -/
theorem continue_on_fail_outcomes_witness :
    ∃ out, execute true (.ok sampleCredentials) rejectingItems = .ok [out] ∧
      out.length = rejectingItems.length ∧
      (∀ (j : Nat) (e : ItemEnv) (reason : ErrReason),
        rejectingItems.get? j = some e → e.sendResult = .rejected reason →
        out.get? j = some { json := .errorMsg reason.message, pairedItem := j }) ∧
      (∀ (j : Nat) (e : ItemEnv) (v : String), rejectingItems.get? j = some e →
        e.sendResult = .fulfilled v →
        out.get? j = some { json := .value v, pairedItem := j }) :=
  continue_on_fail_outcomes (.ok sampleCredentials) rejectingItems (by decide)

/-- C3: with continue-on-fail disabled, as soon as the settled list contains
a rejection, `execute` raises exactly one terminal `NodeApiError` carrying
the reason of the first rejection in output-index order with its `cert`
field removed, and returns no output records at all. -/
theorem abort_on_first_rejection (creds : Except String Credentials)
    (items : List ItemEnv) (reason : ErrReason)
    (hfr : firstRejected (buildPhase creds items).promises = some reason) :
    execute false creds items = .error (.nodeApiError (stripCert reason))
  ∧ (stripCert reason).cert = none
  ∧ ∀ out, execute false creds items ≠ .ok out := by
  have hle : (buildPhase creds items).promises.length ≤ items.length :=
    buildPhaseAux_promises_le creds items 0
  obtain ⟨po, hpo⟩ := outputLoopAux_firstRejected (buildPhase creds items).promises
    items.length 0 [] reason hfr hle
  have h1 : execute false creds items = .error (.nodeApiError (stripCert reason)) := by
    simp only [execute, hpo]
  refine ⟨h1, rfl, ?_⟩
  intro out hcontra
  rw [h1] at hcontra
  exact Except.noConfusion hcontra

/-- Witness for `abort_on_first_rejection` on two concrete items whose second
send is rejected with a reason carrying certificate material. -/
theorem abort_on_first_rejection_witness :
    execute false (.ok sampleCredentials) rejectingItems =
      .error (.nodeApiError (stripCert { message := "boom", cert := some "TLS-CERT" }))
  ∧ (stripCert { message := "boom", cert := some "TLS-CERT" }).cert = none
  ∧ ∀ out, execute false (.ok sampleCredentials) rejectingItems ≠ .ok out :=
  abort_on_first_rejection (.ok sampleCredentials) rejectingItems
    { message := "boom", cert := some "TLS-CERT" } (by decide)

/-- C6: when any item throws during per-item processing, fewer promises are
submitted than there are items; the output loop then shifts past the end of
the settled list and reading `.status` of `undefined` throws, so `execute`
errors with a runtime `TypeError` and returns no outcomes even with
continue-on-fail enabled; and every record accumulated before the throw at a
position at or past the skipped item is paired to index `j` while carrying
the settlement of a later item `i > j`. -/
theorem swallowed_resolution_failure (creds : Except String Credentials)
    (items : List ItemEnv) (k : Nat) (e : ItemEnv)
    (hk : items.get? k = some e) (hbad : ¬buildOk creds e) :
    (buildPhase creds items).promises.length < items.length
  ∧ execute true creds items = .error .typeError
  ∧ ∃ po, outputPhase true items.length (buildPhase creds items).promises =
        .error (.typeError, po)
      ∧ po.length = (buildPhase creds items).promises.length
      ∧ (∀ (j : Nat) (o : Outcome), po.get? j = some o → o.pairedItem = j)
      ∧ (∀ j : Nat, k ≤ j → j < (buildPhase creds items).submitted.length →
          ∃ (i : Nat) (e2 : ItemEnv),
            (buildPhase creds items).submitted.get? j = some i ∧ j < i ∧
            items.get? i = some e2 ∧
            (buildPhase creds items).promises.get? j = some e2.sendResult) := by
  have hlt : (buildPhase creds items).promises.length < items.length :=
    buildPhaseAux_promises_lt creds items 0 k e hk hbad
  have hover := outputLoopAux_overrun (buildPhase creds items).promises
    items.length 0 [] hlt
  refine ⟨hlt, ?_, settleAll 0 (buildPhase creds items).promises, ?_, ?_, ?_, ?_⟩
  · simp only [execute, hover]
  · have hover' : outputLoopAux true 0 items.length
        (buildPhase creds items).promises []
        = .error (.typeError, settleAll 0 (buildPhase creds items).promises) := by
      rw [hover]
      rfl
    exact hover'
  · exact settleAll_length 0 _
  · intro j o hj
    rw [settleAll_get] at hj
    cases hr : (buildPhase creds items).promises.get? j with
    | none => rw [hr] at hj; simp at hj
    | some r =>
      rw [hr] at hj
      simp at hj
      rw [← hj, settleOutcome_pairedItem]
  · intro j hkj hjlen
    have hget : (buildPhase creds items).submitted.get? j =
        some ((buildPhase creds items).submitted.get ⟨j, hjlen⟩) :=
      List.get?_eq_get hjlen
    set i := (buildPhase creds items).submitted.get ⟨j, hjlen⟩ with hi
    have hshift := buildPhaseAux_submitted_shift creds items 0 k e hk hbad j i hkj hget
    obtain ⟨e2, he2, hpr⟩ := buildPhaseAux_promise_source creds items 0 j i hget
    refine ⟨i, e2, hget, by omega, ?_, hpr⟩
    simpa using he2

/-- Witness for `swallowed_resolution_failure` at the concrete three-item
input whose first item fails resolution. -/
theorem swallowed_resolution_failure_witness :
    (buildPhase (.ok sampleCredentials) mixedItems).promises.length <
      mixedItems.length
  ∧ execute true (.ok sampleCredentials) mixedItems = .error .typeError
  ∧ ∃ po, outputPhase true mixedItems.length
        (buildPhase (.ok sampleCredentials) mixedItems).promises =
        .error (.typeError, po)
      ∧ po.length = (buildPhase (.ok sampleCredentials) mixedItems).promises.length
      ∧ (∀ (j : Nat) (o : Outcome), po.get? j = some o → o.pairedItem = j)
      ∧ (∀ j : Nat, 0 ≤ j →
          j < (buildPhase (.ok sampleCredentials) mixedItems).submitted.length →
          ∃ (i : Nat) (e2 : ItemEnv),
            (buildPhase (.ok sampleCredentials) mixedItems).submitted.get? j =
              some i ∧ j < i ∧
            mixedItems.get? i = some e2 ∧
            (buildPhase (.ok sampleCredentials) mixedItems).promises.get? j =
              some e2.sendResult) :=
  swallowed_resolution_failure (.ok sampleCredentials) mixedItems 0 failingEnv
    (by decide) (by decide)

end EmailSendV2
